import Mathlib

/-!
Shallow embedding of the cheat-code unlock core of `src/cheat_codes.rs`
(the progressive unlock engine of the Bevy-Jam-1 repository).

Modelling conventions:
* `CheatCodeKind`, `CheatCodeRarity`, `CheatCodeActivationResult`,
  `CheatCode`, `CheatCodeResource` mirror the Rust items of the same name.
* The Rust `HashMap<CheatCodeKind, CheatCode>` is modelled as a
  `List CheatCode` in insertion order (keys are exactly the `kind` fields,
  which are pairwise distinct in the constructed catalog); iteration over
  the map becomes iteration over the list.
* Randomness is passed explicitly: `rand::thread_rng()` draws become
  `Nat` (or `Nat → Fin 62`) parameters.  `SliceRandom::choose` on a
  non-empty slice is `l.get? (rand % l.length)`;
  `SliceRandom::choose_weighted` is a cumulative-weight walk on an index
  uniform in `[0, total weight)`.
* A Rust `panic!` / `.unwrap()` failure is modelled by `Option.none`.
-/

/-- The enum `CheatCodeKind` of `cheat_codes.rs` (18 variants, including the
source's spelling `TempInvicibility`). -/
inductive CheatCodeKind where
  | Jump
  | Crouch
  | Attack
  | AttackDmgBoost
  | AttackFireRateBoost
  | MoveLeft
  | SpeedBoost1
  | SpeedBoost2
  | SpeedBoost3
  | Armor
  | Dash
  | DoubleJump
  | SpeedBoost4
  | SpeedBoost5
  | Shield
  | ExtraLife
  | TempInvicibility
  | Fly
  deriving DecidableEq, Repr, Fintype

/-- The enum `CheatCodeRarity`.  In Rust the discriminant doubles as the
selection weight (`Mandatory = 0`, `Common = 10`, `Rare = 5`,
`Legendary = 2`). -/
inductive CheatCodeRarity where
  | Mandatory
  | Common
  | Rare
  | Legendary
  deriving DecidableEq, Repr

/-- The numeric discriminant of `CheatCodeRarity`, used as the weight in the
weighted draw (`code.rarity as u8`). -/
def CheatCodeRarity.weight : CheatCodeRarity → Nat
  | .Mandatory => 0
  | .Common => 10
  | .Rare => 5
  | .Legendary => 2

/-- The enum `CheatCodeActivationResult`. -/
inductive CheatCodeActivationResult where
  | NotFound
  | Activated (kind : CheatCodeKind)
  | AlreadyActivated (kind : CheatCodeKind)
  deriving DecidableEq, Repr

/-- The struct `CheatCode`. -/
structure CheatCode where
  kind : CheatCodeKind
  rarity : CheatCodeRarity
  text : String
  dependencies : List CheatCodeKind
  image : String
  deriving DecidableEq, Repr

/-- `CheatCode::new`. -/
def CheatCode.new (kind : CheatCodeKind) (rarity : CheatCodeRarity)
    (text : String) (dependencies : List CheatCodeKind) (image : String) :
    CheatCode :=
  { kind := kind, rarity := rarity, text := text,
    dependencies := dependencies, image := image }

/-- The struct `CheatCodeResource`: the catalog (`codes`, a `HashMap`
modelled as a list of its entries in insertion order) plus the activation
state (`activated : Vec<CheatCodeKind>`). -/
structure CheatCodeResource where
  codes : List CheatCode
  activated : List CheatCodeKind

/-- `CheatCodeResource::is_code_activated`: `self.activated.contains(kind)`. -/
def CheatCodeResource.is_code_activated (r : CheatCodeResource)
    (kind : CheatCodeKind) : Bool :=
  r.activated.contains kind

/-- The list of not-yet-activated Mandatory codes computed at the top of
`get_next_code`. -/
def CheatCodeResource.mandatoryCodes (r : CheatCodeResource) :
    List CheatCodeKind :=
  (r.codes.filter (fun code =>
      code.rarity == CheatCodeRarity.Mandatory
        && !(r.is_code_activated code.kind))).map (fun code => code.kind)

/-- The `available_codes` list of `get_next_code`: codes that are not
activated and have no missing dependencies. -/
def CheatCodeResource.availableCodes (r : CheatCodeResource) :
    List CheatCode :=
  r.codes.filter (fun code =>
    (code.dependencies.filter
        (fun kind => !(r.is_code_activated kind))).length == 0
      && !(r.is_code_activated code.kind))

/-- Sum of the rarity weights of a list of codes: the total weight used by
`choose_weighted`. -/
def totalWeight (l : List CheatCode) : Nat :=
  (l.map (fun code => code.rarity.weight)).sum

/-- The cumulative-weight walk underlying `SliceRandom::choose_weighted`:
given an index `n < totalWeight l`, returns the element whose weight
interval contains `n`. -/
def pickWeighted : List CheatCode → Nat → Option CheatCode
  | [], _ => none
  | code :: rest, n =>
      if n < code.rarity.weight then some code
      else pickWeighted rest (n - code.rarity.weight)

/-- `SliceRandom::choose_weighted` with weight function
`|code| code.rarity as u8`: fails (`none`) when the list is empty or all
weights are zero, otherwise picks by cumulative weight at an index uniform
in `[0, total)` (here `rand % total`). -/
def choose_weighted (l : List CheatCode) (rand : Nat) : Option CheatCode :=
  if totalWeight l = 0 then none else pickWeighted l (rand % totalWeight l)

/-- `CheatCodeResource::get_next_code`.  `rand` stands for the
`thread_rng()` draw; `none` models the `.unwrap()` panic of
`choose_weighted` when no candidate exists. -/
def CheatCodeResource.get_next_code (r : CheatCodeResource) (rand : Nat) :
    Option CheatCodeKind :=
  let mandatories := r.mandatoryCodes
  if !mandatories.isEmpty then
    mandatories.get? (rand % mandatories.length)
  else
    (choose_weighted r.availableCodes rand).map (fun code => code.kind)

/-- The `for` loop of `CheatCodeResource::activate_code`, iterating over the
catalog entries: on the first entry whose `text` matches, either report
`AlreadyActivated` or push the kind and report `Activated`; if the loop
ends, report `NotFound`. -/
def activateLoop (r : CheatCodeResource) (text : String) :
    List CheatCode → CheatCodeActivationResult × CheatCodeResource
  | [] => (CheatCodeActivationResult.NotFound, r)
  | code :: rest =>
      if code.text == text then
        if r.is_code_activated code.kind then
          (CheatCodeActivationResult.AlreadyActivated code.kind, r)
        else
          (CheatCodeActivationResult.Activated code.kind,
            { r with activated := r.activated ++ [code.kind] })
      else activateLoop r text rest

/-- `CheatCodeResource::activate_code`: returns the activation result
together with the updated resource (the Rust method mutates `self`). -/
def CheatCodeResource.activate_code (r : CheatCodeResource) (text : String) :
    CheatCodeActivationResult × CheatCodeResource :=
  activateLoop r text r.codes

/-- The charset of `rand::distributions::Alphanumeric`
(`A-Z`, `a-z`, `0-9`). -/
def alphanumericChars : List Char :=
  "ABCDEFGHIJKLMNOPQRSTUVWXYZabcdefghijklmnopqrstuvwxyz0123456789".toList

/-- The code length chosen by rarity inside `generate_random_code`. -/
def codeLength : CheatCodeRarity → Nat
  | .Mandatory => 4
  | .Common => 4
  | .Rare => 6
  | .Legendary => 8

/-- `generate_random_code`: samples `codeLength rarity` alphanumeric
characters.  `stream` gives the successive uniform draws of
`Alphanumeric.sample_string` as indices into the 62-character charset
(each index is < 62 = `alphanumericChars.length`, so the `getD` default is
never used). -/
def generate_random_code (rarity : CheatCodeRarity)
    (stream : Nat → Fin 62) : String :=
  String.mk ((List.range (codeLength rarity)).map (fun i =>
    alphanumericChars.getD (stream i).val 'A'))

/-- `insert_cheat`: appends the new catalog entry (a `HashMap::insert` with
a fresh key, since all 18 kinds are distinct).  `stream` models the
`thread_rng()` used by the embedded `generate_random_code` call. -/
def insert_cheat (codes : List CheatCode) (kind : CheatCodeKind)
    (rarity : CheatCodeRarity) (dependencies : List CheatCodeKind)
    (image_path : String) (stream : Nat → Fin 62) : List CheatCode :=
  codes ++ [CheatCode.new kind rarity (generate_random_code rarity stream)
    dependencies image_path]

/-- `CheatCodeResource::new`: builds the 18-entry catalog in source order
with an empty activation state.  `streams` supplies the random draws of
each `generate_random_code` call, one stream per inserted kind. -/
def CheatCodeResource.new (streams : CheatCodeKind → Nat → Fin 62) :
    CheatCodeResource :=
  let codes := insert_cheat [] .Jump .Mandatory [] "jump.png"
    (streams .Jump)
  let codes := insert_cheat codes .Crouch .Common [] "crouch.png"
    (streams .Crouch)
  let codes := insert_cheat codes .Attack .Common [] "attack.png"
    (streams .Attack)
  let codes := insert_cheat codes .AttackDmgBoost .Common [.Attack]
    "attack_dmg_boost.png" (streams .AttackDmgBoost)
  let codes := insert_cheat codes .AttackFireRateBoost .Common [.Attack]
    "attack_fr_boost.png" (streams .AttackFireRateBoost)
  let codes := insert_cheat codes .MoveLeft .Common [] "move_left.png"
    (streams .MoveLeft)
  let codes := insert_cheat codes .SpeedBoost1 .Common [] "speed.png"
    (streams .SpeedBoost1)
  let codes := insert_cheat codes .SpeedBoost2 .Common [.SpeedBoost1]
    "speed.png" (streams .SpeedBoost2)
  let codes := insert_cheat codes .SpeedBoost3 .Common
    [.SpeedBoost1, .SpeedBoost2] "speed.png" (streams .SpeedBoost3)
  let codes := insert_cheat codes .Armor .Common [] "armor.png"
    (streams .Armor)
  let codes := insert_cheat codes .Dash .Common [] "dash.png"
    (streams .Dash)
  let codes := insert_cheat codes .DoubleJump .Rare [.Jump]
    "double_jump.png" (streams .DoubleJump)
  let codes := insert_cheat codes .SpeedBoost4 .Rare
    [.SpeedBoost1, .SpeedBoost2, .SpeedBoost3] "speed.png"
    (streams .SpeedBoost4)
  let codes := insert_cheat codes .SpeedBoost5 .Rare
    [.SpeedBoost1, .SpeedBoost2, .SpeedBoost3, .SpeedBoost4] "speed.png"
    (streams .SpeedBoost5)
  let codes := insert_cheat codes .Shield .Rare [.Jump] "shield.png"
    (streams .Shield)
  let codes := insert_cheat codes .ExtraLife .Legendary [] "extra_life.png"
    (streams .ExtraLife)
  let codes := insert_cheat codes .TempInvicibility .Legendary
    [.Armor, .Shield] "temp_invincibility.png" (streams .TempInvicibility)
  let codes := insert_cheat codes .Fly .Legendary [.Jump, .DoubleJump]
    "fly.png" (streams .Fly)
  { codes := codes, activated := [] }

/-- The (kind, rarity, dependencies) projection of a catalog entry: the
logic-relevant part, independent of the randomly generated `text`. -/
def projTriple (c : CheatCode) :
    CheatCodeKind × CheatCodeRarity × List CheatCodeKind :=
  (c.kind, c.rarity, c.dependencies)

/-- The static catalog content of `CheatCodeResource::new`, as
(kind, rarity, dependencies) triples in insertion order. -/
def catalogTriples :
    List (CheatCodeKind × CheatCodeRarity × List CheatCodeKind) :=
  [(.Jump, .Mandatory, []),
   (.Crouch, .Common, []),
   (.Attack, .Common, []),
   (.AttackDmgBoost, .Common, [.Attack]),
   (.AttackFireRateBoost, .Common, [.Attack]),
   (.MoveLeft, .Common, []),
   (.SpeedBoost1, .Common, []),
   (.SpeedBoost2, .Common, [.SpeedBoost1]),
   (.SpeedBoost3, .Common, [.SpeedBoost1, .SpeedBoost2]),
   (.Armor, .Common, []),
   (.Dash, .Common, []),
   (.DoubleJump, .Rare, [.Jump]),
   (.SpeedBoost4, .Rare, [.SpeedBoost1, .SpeedBoost2, .SpeedBoost3]),
   (.SpeedBoost5, .Rare,
     [.SpeedBoost1, .SpeedBoost2, .SpeedBoost3, .SpeedBoost4]),
   (.Shield, .Rare, [.Jump]),
   (.ExtraLife, .Legendary, []),
   (.TempInvicibility, .Legendary, [.Armor, .Shield]),
   (.Fly, .Legendary, [.Jump, .DoubleJump])]

/-- The rarity that `CheatCodeResource::new` assigns to each kind. -/
def rarityOf : CheatCodeKind → CheatCodeRarity
  | .Jump => .Mandatory
  | .Crouch | .Attack | .AttackDmgBoost | .AttackFireRateBoost
  | .MoveLeft | .SpeedBoost1 | .SpeedBoost2 | .SpeedBoost3
  | .Armor | .Dash => .Common
  | .DoubleJump | .SpeedBoost4 | .SpeedBoost5 | .Shield => .Rare
  | .ExtraLife | .TempInvicibility | .Fly => .Legendary

/-- The dependency list that `CheatCodeResource::new` assigns to each kind. -/
def dependenciesOf : CheatCodeKind → List CheatCodeKind
  | .AttackDmgBoost | .AttackFireRateBoost => [.Attack]
  | .SpeedBoost2 => [.SpeedBoost1]
  | .SpeedBoost3 => [.SpeedBoost1, .SpeedBoost2]
  | .DoubleJump | .Shield => [.Jump]
  | .SpeedBoost4 => [.SpeedBoost1, .SpeedBoost2, .SpeedBoost3]
  | .SpeedBoost5 => [.SpeedBoost1, .SpeedBoost2, .SpeedBoost3, .SpeedBoost4]
  | .TempInvicibility => [.Armor, .Shield]
  | .Fly => [.Jump, .DoubleJump]
  | _ => []

/-- A one-entry resource used to exercise the redemption branches on
concrete inputs. -/
def sampleResource : CheatCodeResource :=
  { codes := [CheatCode.new CheatCodeKind.Jump CheatCodeRarity.Mandatory
      "abcd" [] "jump.png"],
    activated := [] }

/-- A session step driven by the host: either a redemption attempt
(`activate_code`, which may mutate the resource) or a next-unlock query
(`get_next_code`, read-only). -/
inductive SessionOp where
  | redeemOp (text : String)
  | nextOp (rand : Nat)

/-- The resource after one session step. -/
def applyOp (r : CheatCodeResource) : SessionOp → CheatCodeResource
  | .redeemOp t => (r.activate_code t).2
  | .nextOp _ => r

/-- The resource after a sequence of session steps. -/
def runOps (r : CheatCodeResource) (ops : List SessionOp) :
    CheatCodeResource :=
  ops.foldl applyOp r

/-- A resource whose two catalog entries carry the same secret code,
exercising the first-match tie-break of `activate_code`. -/
def dupResource : CheatCodeResource :=
  { codes := [CheatCode.new CheatCodeKind.Jump CheatCodeRarity.Mandatory
      "dupe" [] "jump.png",
    CheatCode.new CheatCodeKind.Crouch CheatCodeRarity.Common
      "dupe" [] "crouch.png"],
    activated := [] }

/-- All abilities except `Dash` (Common) and `ExtraLife` (Legendary):
fixing the eligible set of the claim's example. -/
def denseActs : List CheatCodeKind :=
  [.Jump, .Crouch, .Attack, .AttackDmgBoost, .AttackFireRateBoost,
   .MoveLeft, .SpeedBoost1, .SpeedBoost2, .SpeedBoost3, .Armor,
   .DoubleJump, .SpeedBoost4, .SpeedBoost5, .Shield, .TempInvicibility,
   .Fly]

theorem new_codes_proj (s : CheatCodeKind → Nat → Fin 62) :
    ((CheatCodeResource.new s).codes.map projTriple) = catalogTriples := by
  simp [CheatCodeResource.new, insert_cheat, CheatCode.new, projTriple,
    catalogTriples]

theorem catalogTriples_rarity_deps :
    ∀ t ∈ catalogTriples, t.2.1 = rarityOf t.1 ∧ t.2.2 = dependenciesOf t.1 := by
  decide

theorem mem_new_codes_rarity_deps (s : CheatCodeKind → Nat → Fin 62)
    (c : CheatCode) (hc : c ∈ (CheatCodeResource.new s).codes) :
    c.rarity = rarityOf c.kind ∧ c.dependencies = dependenciesOf c.kind := by
  have h : projTriple c ∈ catalogTriples := by
    rw [← new_codes_proj s]
    exact List.mem_map_of_mem projTriple hc
  exact catalogTriples_rarity_deps _ h

theorem exists_new_entry (s : CheatCodeKind → Nat → Fin 62)
    (k : CheatCodeKind) :
    ∃ c ∈ (CheatCodeResource.new s).codes,
      c.kind = k ∧ c.rarity = rarityOf k ∧ c.dependencies = dependenciesOf k := by
  have h : (k, rarityOf k, dependenciesOf k) ∈ catalogTriples := by
    cases k <;> decide
  rw [← new_codes_proj s] at h
  obtain ⟨c, hc, hproj⟩ := List.mem_map.mp h
  refine ⟨c, hc, ?_, ?_, ?_⟩
  · exact congrArg Prod.fst hproj
  · exact congrArg (fun t => t.2.1) hproj
  · exact congrArg (fun t => t.2.2) hproj

theorem new_codes_kinds (s : CheatCodeKind → Nat → Fin 62) :
    ((CheatCodeResource.new s).codes.map (fun c => c.kind)) =
      catalogTriples.map (fun t => t.1) := by
  have h := congrArg (List.map (fun t => t.1)) (new_codes_proj s)
  simpa [Function.comp] using h

theorem new_codes_kinds_nodup (s : CheatCodeKind → Nat → Fin 62) :
    ((CheatCodeResource.new s).codes.map (fun c => c.kind)).Nodup := by
  rw [new_codes_kinds]
  decide

theorem contains_iff_mem (l : List CheatCodeKind) (k : CheatCodeKind) :
    l.contains k = true ↔ k ∈ l := by
  simp [List.contains]

theorem contains_eq_false_iff (l : List CheatCodeKind) (k : CheatCodeKind) :
    l.contains k = false ↔ k ∉ l := by
  simp [List.contains]

theorem mem_mandatoryCodes {r : CheatCodeResource} {k : CheatCodeKind} :
    k ∈ r.mandatoryCodes ↔
      ∃ c ∈ r.codes, c.kind = k ∧ c.rarity = CheatCodeRarity.Mandatory ∧
        r.is_code_activated k = false := by
  simp only [CheatCodeResource.mandatoryCodes, List.mem_map, List.mem_filter,
    Bool.and_eq_true, beq_iff_eq, Bool.not_eq_true']
  constructor
  · rintro ⟨c, ⟨hc, hrar, hact⟩, rfl⟩
    exact ⟨c, hc, rfl, hrar, hact⟩
  · rintro ⟨c, hc, rfl, hrar, hact⟩
    exact ⟨c, ⟨hc, hrar, hact⟩, rfl⟩

theorem mem_availableCodes {r : CheatCodeResource} {c : CheatCode} :
    c ∈ r.availableCodes ↔
      c ∈ r.codes ∧ (∀ d ∈ c.dependencies, r.is_code_activated d = true) ∧
        r.is_code_activated c.kind = false := by
  simp only [CheatCodeResource.availableCodes, List.mem_filter,
    Bool.and_eq_true, beq_iff_eq, Bool.not_eq_true']
  constructor
  · rintro ⟨hc, hlen, hact⟩
    refine ⟨hc, ?_, hact⟩
    have hnil := List.length_eq_zero.mp (by exact_mod_cast hlen)
    intro d hd
    by_contra hfalse
    have : d ∈ c.dependencies.filter (fun kind => !(r.is_code_activated kind)) :=
      List.mem_filter.mpr ⟨hd, by simp [Bool.eq_false_iff.mpr hfalse]⟩
    simp [hnil] at this
  · rintro ⟨hc, hdeps, hact⟩
    refine ⟨hc, ?_, hact⟩
    have hnil : c.dependencies.filter (fun kind => !(r.is_code_activated kind)) = [] := by
      apply List.filter_eq_nil_iff.mpr
      intro d hd
      simp [hdeps d hd]
    simp [hnil]

theorem pickWeighted_mem :
    ∀ {l : List CheatCode} {n : Nat} {c : CheatCode},
      pickWeighted l n = some c → c ∈ l := by
  intro l
  induction l with
  | nil => intro n c h; simp [pickWeighted] at h
  | cons d rest ih =>
      intro n c h
      simp only [pickWeighted] at h
      by_cases hn : n < d.rarity.weight
      · simp [hn] at h
        exact h ▸ List.mem_cons_self d rest
      · simp [hn] at h
        exact List.mem_cons_of_mem d (ih h)

theorem pickWeighted_isSome :
    ∀ {l : List CheatCode} {n : Nat},
      n < totalWeight l → (pickWeighted l n).isSome = true := by
  intro l
  induction l with
  | nil => intro n h; simp [totalWeight] at h
  | cons d rest ih =>
      intro n h
      simp only [pickWeighted]
      by_cases hn : n < d.rarity.weight
      · simp [hn]
      · simp only [hn, if_false]
        apply ih
        have htot : totalWeight (d :: rest) = d.rarity.weight + totalWeight rest := by
          simp [totalWeight]
        omega

theorem choose_weighted_mem {l : List CheatCode} {rand : Nat} {c : CheatCode}
    (h : choose_weighted l rand = some c) : c ∈ l := by
  unfold choose_weighted at h
  by_cases htot : totalWeight l = 0
  · simp [htot] at h
  · simp only [htot, if_false] at h
    exact pickWeighted_mem h

theorem le_totalWeight_of_mem {l : List CheatCode} {c : CheatCode}
    (hc : c ∈ l) : c.rarity.weight ≤ totalWeight l :=
  List.le_sum_of_mem (List.mem_map_of_mem (fun code => code.rarity.weight) hc)

theorem choose_weighted_isSome {l : List CheatCode} {c : CheatCode}
    (hc : c ∈ l) (hw : 0 < c.rarity.weight) (rand : Nat) :
    (choose_weighted l rand).isSome = true := by
  have htot : 0 < totalWeight l := lt_of_lt_of_le hw (le_totalWeight_of_mem hc)
  unfold choose_weighted
  simp only [Nat.pos_iff_ne_zero.mp htot, if_false]
  exact pickWeighted_isSome (Nat.mod_lt _ htot)

theorem get_next_code_some {r : CheatCodeResource} {rand : Nat}
    {k : CheatCodeKind} (h : r.get_next_code rand = some k) :
    k ∈ r.mandatoryCodes ∨
      (r.mandatoryCodes = [] ∧ ∃ c ∈ r.availableCodes, c.kind = k) := by
  unfold CheatCodeResource.get_next_code at h
  by_cases hm : r.mandatoryCodes.isEmpty
  · right
    refine ⟨List.isEmpty_iff.mp hm, ?_⟩
    simp only [hm, Bool.not_true, Bool.false_eq_true, if_false] at h
    cases hcw : choose_weighted r.availableCodes rand with
    | none => rw [hcw] at h; simp at h
    | some c =>
        rw [hcw] at h
        simp only [Option.map_some'] at h
        exact ⟨c, choose_weighted_mem hcw, Option.some.inj h⟩
  · rw [Bool.not_eq_true] at hm
    left
    simp only [hm, Bool.not_false, if_true] at h
    exact List.get?_mem h

theorem get_next_code_isSome_of_mandatory {r : CheatCodeResource}
    (hm : r.mandatoryCodes ≠ []) (rand : Nat) :
    (r.get_next_code rand).isSome = true := by
  unfold CheatCodeResource.get_next_code
  have hne : r.mandatoryCodes.isEmpty = false := by
    simpa [List.isEmpty_iff] using hm
  simp only [hne, Bool.not_false, if_true]
  have hlen : 0 < r.mandatoryCodes.length := List.length_pos.mpr hm
  have hlt : rand % r.mandatoryCodes.length < r.mandatoryCodes.length :=
    Nat.mod_lt _ hlen
  rw [List.get?_eq_get hlt]
  rfl

theorem get_next_code_isSome_of_available {r : CheatCodeResource}
    (hm : r.mandatoryCodes = []) {c : CheatCode} (hc : c ∈ r.availableCodes)
    (hw : 0 < c.rarity.weight) (rand : Nat) :
    (r.get_next_code rand).isSome = true := by
  unfold CheatCodeResource.get_next_code
  simp only [hm, List.isEmpty_nil, Bool.not_true, Bool.false_eq_true, if_false]
  obtain ⟨c', hc'⟩ :=
    Option.isSome_iff_exists.mp (choose_weighted_isSome hc hw rand)
  rw [hc']
  rfl

theorem activateLoop_eq_find (r : CheatCodeResource) (text : String)
    (l : List CheatCode) :
    activateLoop r text l =
      match l.find? (fun code => code.text == text) with
      | none => (CheatCodeActivationResult.NotFound, r)
      | some code =>
          if r.is_code_activated code.kind then
            (CheatCodeActivationResult.AlreadyActivated code.kind, r)
          else
            (CheatCodeActivationResult.Activated code.kind,
              { r with activated := r.activated ++ [code.kind] }) := by
  induction l with
  | nil => rfl
  | cons c rest ih =>
      cases hc : (c.text == text) with
      | true => simp only [activateLoop, List.find?, hc, if_true]
      | false =>
          simp only [activateLoop, List.find?, hc, Bool.false_eq_true,
            if_false]
          exact ih

theorem activate_code_eq_find (r : CheatCodeResource) (text : String) :
    r.activate_code text =
      match r.codes.find? (fun code => code.text == text) with
      | none => (CheatCodeActivationResult.NotFound, r)
      | some code =>
          if r.is_code_activated code.kind then
            (CheatCodeActivationResult.AlreadyActivated code.kind, r)
          else
            (CheatCodeActivationResult.Activated code.kind,
              { r with activated := r.activated ++ [code.kind] }) :=
  activateLoop_eq_find r text r.codes

theorem activate_code_of_find_none {r : CheatCodeResource} {text : String}
    (hf : r.codes.find? (fun code => code.text == text) = none) :
    r.activate_code text = (CheatCodeActivationResult.NotFound, r) := by
  rw [activate_code_eq_find, hf]

theorem activate_code_of_find_some_activated {r : CheatCodeResource}
    {text : String} {c : CheatCode}
    (hf : r.codes.find? (fun code => code.text == text) = some c)
    (hact : r.is_code_activated c.kind = true) :
    r.activate_code text =
      (CheatCodeActivationResult.AlreadyActivated c.kind, r) := by
  rw [activate_code_eq_find, hf]
  simp [hact]

theorem activate_code_of_find_some_fresh {r : CheatCodeResource}
    {text : String} {c : CheatCode}
    (hf : r.codes.find? (fun code => code.text == text) = some c)
    (hact : r.is_code_activated c.kind = false) :
    r.activate_code text =
      (CheatCodeActivationResult.Activated c.kind,
        { r with activated := r.activated ++ [c.kind] }) := by
  rw [activate_code_eq_find, hf]
  simp [hact]

theorem activate_code_codes (r : CheatCodeResource) (text : String) :
    (r.activate_code text).2.codes = r.codes := by
  cases hf : r.codes.find? (fun code => code.text == text) with
  | none => rw [activate_code_of_find_none hf]
  | some code =>
      cases hact : r.is_code_activated code.kind with
      | true => rw [activate_code_of_find_some_activated hf hact]
      | false => rw [activate_code_of_find_some_fresh hf hact]

theorem activate_code_activated_cases (r : CheatCodeResource) (text : String) :
    (r.activate_code text).2.activated = r.activated ∨
      ∃ k, (r.activate_code text).1 = CheatCodeActivationResult.Activated k ∧
        (r.activate_code text).2.activated = r.activated ++ [k] := by
  cases hf : r.codes.find? (fun code => code.text == text) with
  | none => left; rw [activate_code_of_find_none hf]
  | some code =>
      cases hact : r.is_code_activated code.kind with
      | true => left; rw [activate_code_of_find_some_activated hf hact]
      | false =>
          right
          rw [activate_code_of_find_some_fresh hf hact]
          exact ⟨code.kind, rfl, rfl⟩

theorem activate_code_activated_spec {r : CheatCodeResource} {text : String}
    {k : CheatCodeKind}
    (h : (r.activate_code text).1 = CheatCodeActivationResult.Activated k) :
    r.is_code_activated k = false ∧
      (r.activate_code text).2.activated = r.activated ++ [k] ∧
      ∃ c ∈ r.codes, c.text = text ∧ c.kind = k ∧
        r.codes.find? (fun code => code.text == text) = some c := by
  cases hf : r.codes.find? (fun code => code.text == text) with
  | none =>
      rw [activate_code_of_find_none hf] at h
      exact absurd h (by simp)
  | some code =>
      cases hact : r.is_code_activated code.kind with
      | true =>
          rw [activate_code_of_find_some_activated hf hact] at h
          exact absurd h (by simp)
      | false =>
          have hk : code.kind = k := by
            rw [activate_code_of_find_some_fresh hf hact] at h
            simpa using h
          subst hk
          rw [activate_code_of_find_some_fresh hf hact]
          refine ⟨hact, rfl,
            code, List.mem_of_find?_eq_some hf, ?_, rfl, rfl⟩
          simpa using List.find?_some hf

theorem is_code_activated_mk (codes : List CheatCode)
    (acts : List CheatCodeKind) (k : CheatCodeKind) :
    (CheatCodeResource.mk codes acts).is_code_activated k = acts.contains k :=
  rfl

theorem rarityOf_mandatory :
    ∀ k : CheatCodeKind, rarityOf k = CheatCodeRarity.Mandatory →
      k = CheatCodeKind.Jump := by
  decide

/-- C1: for every activation state, `get_next_code` never returns an
already-activated ability id, and never returns an id one of whose
catalog dependencies is not in the activation state. -/
theorem claim_C1_next_unlock_sound (s : CheatCodeKind → Nat → Fin 62)
    (acts : List CheatCodeKind) (rand : Nat) (k : CheatCodeKind)
    (h : (CheatCodeResource.mk (CheatCodeResource.new s).codes acts).get_next_code
        rand = some k) :
    acts.contains k = false ∧ ∀ d ∈ dependenciesOf k, acts.contains d = true := by
  rcases get_next_code_some h with hm | ⟨-, c, hc, hk⟩
  · obtain ⟨c, hc, hk, hrar, hact⟩ := mem_mandatoryCodes.mp hm
    have hrd := mem_new_codes_rarity_deps s c hc
    have hkind : c.kind = CheatCodeKind.Jump :=
      rarityOf_mandatory c.kind (by rw [← hrd.1, hrar])
    rw [hkind] at hk
    subst hk
    refine ⟨hact, ?_⟩
    intro d hd
    simp [dependenciesOf] at hd
  · obtain ⟨hcmem, hdeps, hact⟩ := mem_availableCodes.mp hc
    have hrd := mem_new_codes_rarity_deps s c hcmem
    subst hk
    refine ⟨hact, ?_⟩
    rw [← hrd.2]
    exact hdeps

/-- Concrete run of C1: on the fresh catalog (all-zero random streams,
empty activation state) the selector returns `Jump`, which is unactivated
and has no dependencies. -/
theorem claim_C1_witness :
    (CheatCodeResource.mk
        (CheatCodeResource.new (fun _ _ => (0 : Fin 62))).codes
        []).get_next_code 0 = some CheatCodeKind.Jump ∧
      ([] : List CheatCodeKind).contains CheatCodeKind.Jump = false ∧
      ∀ d ∈ dependenciesOf CheatCodeKind.Jump,
        ([] : List CheatCodeKind).contains d = true :=
  ⟨by decide,
    claim_C1_next_unlock_sound (fun _ _ => (0 : Fin 62)) [] 0
      CheatCodeKind.Jump (by decide)⟩

theorem mandatoryCodes_mk (s : CheatCodeKind → Nat → Fin 62)
    (acts : List CheatCodeKind) :
    (CheatCodeResource.mk (CheatCodeResource.new s).codes acts).mandatoryCodes =
      (catalogTriples.filter (fun t =>
        t.2.1 == CheatCodeRarity.Mandatory && !(acts.contains t.1))).map
        (fun t => t.1) := by
  unfold CheatCodeResource.mandatoryCodes
  rw [← new_codes_proj s, List.filter_map, List.map_map]
  rfl

theorem availableCodes_mk_proj (s : CheatCodeKind → Nat → Fin 62)
    (acts : List CheatCodeKind) :
    ((CheatCodeResource.mk (CheatCodeResource.new s).codes
        acts).availableCodes).map projTriple =
      catalogTriples.filter (fun t =>
        (t.2.2.filter (fun kind => !(acts.contains kind))).length == 0
          && !(acts.contains t.1)) := by
  unfold CheatCodeResource.availableCodes
  rw [← new_codes_proj s, List.filter_map]
  rfl

/-- C2: whenever some Mandatory-rarity ability is not yet activated,
`get_next_code` returns a Mandatory ability.  In the constructed catalog
`Jump` is the only Mandatory ability, so the uniform draw over the locked
Mandatory abilities always yields `Jump`. -/
theorem claim_C2_mandatory_first (s : CheatCodeKind → Nat → Fin 62)
    (acts : List CheatCodeKind) (rand : Nat)
    (h : ∃ c ∈ (CheatCodeResource.new s).codes,
        c.rarity = CheatCodeRarity.Mandatory ∧ acts.contains c.kind = false) :
    (CheatCodeResource.mk (CheatCodeResource.new s).codes acts).get_next_code
        rand = some CheatCodeKind.Jump ∧
      rarityOf CheatCodeKind.Jump = CheatCodeRarity.Mandatory ∧
      acts.contains CheatCodeKind.Jump = false := by
  obtain ⟨c, hc, hrar, hact⟩ := h
  have hrd := mem_new_codes_rarity_deps s c hc
  have hkind : c.kind = CheatCodeKind.Jump :=
    rarityOf_mandatory c.kind (by rw [← hrd.1, hrar])
  rw [hkind] at hact
  have hnotmem : CheatCodeKind.Jump ∉ acts :=
    (contains_eq_false_iff acts _).mp hact
  have hmand : (CheatCodeResource.mk (CheatCodeResource.new s).codes
      acts).mandatoryCodes = [CheatCodeKind.Jump] := by
    rw [mandatoryCodes_mk]
    simp [catalogTriples, hnotmem]
  refine ⟨?_, rfl, hact⟩
  simp only [CheatCodeResource.get_next_code, hmand]
  simp [Nat.mod_one]

/-- Concrete run of C2: with only `Crouch` activated, `Jump` (Mandatory) is
still locked and the selector returns it, for the draw 7. -/
theorem claim_C2_witness :
    (∃ c ∈ (CheatCodeResource.new (fun _ _ => (0 : Fin 62))).codes,
        c.rarity = CheatCodeRarity.Mandatory ∧
          ([CheatCodeKind.Crouch].contains c.kind) = false) ∧
      (CheatCodeResource.mk
          (CheatCodeResource.new (fun _ _ => (0 : Fin 62))).codes
          [CheatCodeKind.Crouch]).get_next_code 7 = some CheatCodeKind.Jump :=
  ⟨by decide,
    (claim_C2_mandatory_first (fun _ _ => (0 : Fin 62)) [CheatCodeKind.Crouch]
      7 (by decide)).1⟩

/-- C3: `activate_code` returns `NotFound` and leaves the state unchanged
when no catalog entry's code matches; returns `AlreadyActivated` without a
state change when the (first) matching entry is already activated;
otherwise pushes the matching id and returns `Activated`.  Redeeming the
same valid code twice therefore yields `Activated` then
`AlreadyActivated`, the second call leaving the activation state as it
was after the first. -/
theorem claim_C3_redeem_outcomes (r : CheatCodeResource) (t : String) :
    ((∀ c ∈ r.codes, c.text ≠ t) →
      r.activate_code t = (CheatCodeActivationResult.NotFound, r)) ∧
    (∀ c, r.codes.find? (fun code => code.text == t) = some c →
      r.is_code_activated c.kind = true →
      r.activate_code t = (CheatCodeActivationResult.AlreadyActivated c.kind, r)) ∧
    (∀ c, r.codes.find? (fun code => code.text == t) = some c →
      r.is_code_activated c.kind = false →
      r.activate_code t = (CheatCodeActivationResult.Activated c.kind,
        { r with activated := r.activated ++ [c.kind] })) ∧
    (∀ k, (r.activate_code t).1 = CheatCodeActivationResult.Activated k →
      ((r.activate_code t).2.activate_code t).1 =
          CheatCodeActivationResult.AlreadyActivated k ∧
        ((r.activate_code t).2.activate_code t).2.activated =
          (r.activate_code t).2.activated) := by
  refine ⟨?_, ?_, ?_, ?_⟩
  · intro hnone
    apply activate_code_of_find_none
    rw [List.find?_eq_none]
    intro c hc
    simpa using hnone c hc
  · intro c hf hact
    exact activate_code_of_find_some_activated hf hact
  · intro c hf hact
    exact activate_code_of_find_some_fresh hf hact
  · intro k h
    obtain ⟨-, hpush, c, -, -, hkind, hf⟩ := activate_code_activated_spec h
    have hf1 : (r.activate_code t).2.codes.find?
        (fun code => code.text == t) = some c := by
      rw [activate_code_codes]; exact hf
    have hact1 : (r.activate_code t).2.is_code_activated c.kind = true := by
      unfold CheatCodeResource.is_code_activated
      rw [hpush, hkind]
      simp
    have := activate_code_of_find_some_activated hf1 hact1
    rw [this, hkind]
    exact ⟨rfl, rfl⟩

/-- Concrete run of C3: an unknown string is `NotFound` without state
change, and redeeming `"abcd"` twice yields `Activated Jump` then
`AlreadyActivated Jump` with the activation state untouched by the second
call. -/
theorem claim_C3_witness :
    sampleResource.activate_code "zzzz" =
        (CheatCodeActivationResult.NotFound, sampleResource) ∧
      (sampleResource.activate_code "abcd").1 =
        CheatCodeActivationResult.Activated CheatCodeKind.Jump ∧
      ((sampleResource.activate_code "abcd").2.activate_code "abcd").1 =
        CheatCodeActivationResult.AlreadyActivated CheatCodeKind.Jump ∧
      ((sampleResource.activate_code "abcd").2.activate_code "abcd").2.activated =
        (sampleResource.activate_code "abcd").2.activated :=
  ⟨(claim_C3_redeem_outcomes sampleResource "zzzz").1 (by decide),
    by decide,
    ((claim_C3_redeem_outcomes sampleResource "abcd").2.2.2
      CheatCodeKind.Jump (by decide)).1,
    ((claim_C3_redeem_outcomes sampleResource "abcd").2.2.2
      CheatCodeKind.Jump (by decide)).2⟩

theorem applyOp_mem_activated (r : CheatCodeResource) (op : SessionOp)
    (k : CheatCodeKind) (h : k ∈ r.activated) :
    k ∈ (applyOp r op).activated := by
  cases op with
  | nextOp rand => exact h
  | redeemOp t =>
      rcases activate_code_activated_cases r t with heq | ⟨k', -, heq⟩ <;>
        simp only [applyOp, heq]
      · exact h
      · exact List.mem_append_left _ h

theorem runOps_mem_activated (ops : List SessionOp) :
    ∀ (r : CheatCodeResource) (k : CheatCodeKind), k ∈ r.activated →
      k ∈ (runOps r ops).activated := by
  induction ops with
  | nil => intro r k h; exact h
  | cons op rest ih =>
      intro r k h
      exact ih (applyOp r op) k (applyOp_mem_activated r op k h)

theorem get_next_code_not_activated {r : CheatCodeResource} {rand : Nat}
    {k : CheatCodeKind} (h : r.get_next_code rand = some k) :
    r.is_code_activated k = false := by
  rcases get_next_code_some h with hm | ⟨-, c, hc, hk⟩
  · exact (mem_mandatoryCodes.mp hm).choose_spec.2.2.2
  · obtain ⟨-, -, hact⟩ := mem_availableCodes.mp hc
    exact hk ▸ hact

/-- C4: activation is irreversible within a session: no operation removes
an id from the activation state, and once `activate_code` returns
`Activated k`, after every subsequent sequence of redeem / next-unlock
operations `is_code_activated k` is true and `get_next_code` never
returns `k`. -/
theorem claim_C4_irreversible :
    (∀ (r : CheatCodeResource) (op : SessionOp) (k : CheatCodeKind),
      k ∈ r.activated → k ∈ (applyOp r op).activated) ∧
    (∀ (r : CheatCodeResource) (t : String) (k : CheatCodeKind),
      (r.activate_code t).1 = CheatCodeActivationResult.Activated k →
      ∀ ops : List SessionOp,
        (runOps (r.activate_code t).2 ops).is_code_activated k = true ∧
        ∀ rand : Nat,
          (runOps (r.activate_code t).2 ops).get_next_code rand ≠ some k) := by
  refine ⟨applyOp_mem_activated, ?_⟩
  intro r t k h ops
  obtain ⟨-, hpush, -⟩ := activate_code_activated_spec h
  have hmem : k ∈ (r.activate_code t).2.activated := by
    rw [hpush]; simp
  have hfinal : k ∈ (runOps (r.activate_code t).2 ops).activated :=
    runOps_mem_activated ops _ k hmem
  have hact : (runOps (r.activate_code t).2 ops).is_code_activated k = true := by
    unfold CheatCodeResource.is_code_activated
    exact (contains_iff_mem _ _).mpr hfinal
  refine ⟨hact, ?_⟩
  intro rand hsome
  rw [get_next_code_not_activated hsome] at hact
  exact Bool.false_ne_true hact

/-- Concrete run of C4: after redeeming `"abcd"` (activating `Jump`) and
one more query step, `Jump` stays activated and the selector does not
return it. -/
theorem claim_C4_witness :
    (sampleResource.activate_code "abcd").1 =
        CheatCodeActivationResult.Activated CheatCodeKind.Jump ∧
      (runOps (sampleResource.activate_code "abcd").2
          [SessionOp.nextOp 5]).is_code_activated CheatCodeKind.Jump = true ∧
      (runOps (sampleResource.activate_code "abcd").2
          [SessionOp.nextOp 5]).get_next_code 0 ≠ some CheatCodeKind.Jump :=
  ⟨by decide,
    (claim_C4_irreversible.2 sampleResource "abcd" CheatCodeKind.Jump
      (by decide) [SessionOp.nextOp 5]).1,
    (claim_C4_irreversible.2 sampleResource "abcd" CheatCodeKind.Jump
      (by decide) [SessionOp.nextOp 5]).2 0⟩

theorem activate_code_nodup (r : CheatCodeResource) (t : String)
    (hnd : r.activated.Nodup) : (r.activate_code t).2.activated.Nodup := by
  rcases activate_code_activated_cases r t with heq | ⟨k, hres, heq⟩
  · rw [heq]; exact hnd
  · rw [heq]
    obtain ⟨hfresh, -, -⟩ := activate_code_activated_spec hres
    have hk : k ∉ r.activated := by
      unfold CheatCodeResource.is_code_activated at hfresh
      exact (contains_eq_false_iff _ _).mp hfresh
    simp [List.nodup_append, hnd, hk]

theorem runOps_nodup (ops : List SessionOp) :
    ∀ r : CheatCodeResource, r.activated.Nodup →
      (runOps r ops).activated.Nodup := by
  induction ops with
  | nil => intro r h; exact h
  | cons op rest ih =>
      intro r h
      refine ih (applyOp r op) ?_
      cases op with
      | nextOp rand => exact h
      | redeemOp t => exact activate_code_nodup r t h

/-- C10: the activation list is empty at construction, each `activate_code`
call grows it by at most one, activating preserves the no-duplicates
invariant, and in every state reachable from `CheatCodeResource::new` the
activated list has no duplicates — so its length is the number of distinct
activated abilities (it equals the length of its deduplication). -/
theorem claim_C10_activated_nodup :
    (∀ s : CheatCodeKind → Nat → Fin 62,
      (CheatCodeResource.new s).activated = []) ∧
    (∀ (r : CheatCodeResource) (t : String),
      (r.activate_code t).2.activated.length ≤ r.activated.length + 1) ∧
    (∀ (r : CheatCodeResource) (t : String), r.activated.Nodup →
      (r.activate_code t).2.activated.Nodup) ∧
    (∀ (s : CheatCodeKind → Nat → Fin 62) (ops : List SessionOp),
      (runOps (CheatCodeResource.new s) ops).activated.Nodup ∧
      (runOps (CheatCodeResource.new s) ops).activated.length =
        (runOps (CheatCodeResource.new s) ops).activated.dedup.length) := by
  refine ⟨fun _ => rfl, ?_, activate_code_nodup, ?_⟩
  · intro r t
    rcases activate_code_activated_cases r t with heq | ⟨k, -, heq⟩ <;>
      rw [heq]
    · exact Nat.le_succ _
    · simp
  · intro s ops
    have hbase : (CheatCodeResource.new s).activated = [] := rfl
    have hnd : (runOps (CheatCodeResource.new s) ops).activated.Nodup := by
      apply runOps_nodup
      rw [hbase]
      exact List.nodup_nil
    exact ⟨hnd, by rw [List.Nodup.dedup hnd]⟩

/-- Concrete run of C10: starting from the empty activation state, one
successful redemption yields a duplicate-free activation list. -/
theorem claim_C10_witness :
    sampleResource.activated.Nodup ∧
      (sampleResource.activate_code "abcd").2.activated.Nodup :=
  ⟨by decide,
    claim_C10_activated_nodup.2.2.1 sampleResource "abcd" (by decide)⟩

theorem alphanumericChars_isAlphanum :
    ∀ c ∈ alphanumericChars, c.isAlphanum = true := by
  decide

theorem getD_mem_of_lt {l : List Char} {n : Nat} {d : Char}
    (h : n < l.length) : l.getD n d ∈ l := by
  rw [List.getD_eq_getElem?_getD, List.getElem?_eq_getElem h]
  exact List.getElem_mem h

theorem generate_random_code_length (rarity : CheatCodeRarity)
    (stream : Nat → Fin 62) :
    (generate_random_code rarity stream).length = codeLength rarity := by
  simp [generate_random_code, String.length]

theorem generate_random_code_alphanum (rarity : CheatCodeRarity)
    (stream : Nat → Fin 62) :
    ∀ ch ∈ (generate_random_code rarity stream).toList,
      ch.isAlphanum = true := by
  intro ch hch
  have : ch ∈ (List.range (codeLength rarity)).map (fun i =>
      alphanumericChars.getD (stream i).val 'A') := hch
  obtain ⟨i, -, rfl⟩ := List.mem_map.mp this
  exact alphanumericChars_isAlphanum _ (getD_mem_of_lt (stream i).isLt)

theorem new_codes_text (s : CheatCodeKind → Nat → Fin 62) :
    ∀ c ∈ (CheatCodeResource.new s).codes,
      ∃ stream, c.text = generate_random_code c.rarity stream := by
  intro c hc
  simp only [CheatCodeResource.new, insert_cheat, CheatCode.new,
    List.nil_append, List.singleton_append, List.cons_append] at hc
  simp only [List.mem_cons, List.not_mem_nil, or_false] at hc
  rcases hc with rfl | rfl | rfl | rfl | rfl | rfl | rfl | rfl | rfl | rfl |
    rfl | rfl | rfl | rfl | rfl | rfl | rfl | rfl <;>
    exact ⟨_, rfl⟩

/-- C7: for every rarity, `generate_random_code` returns a string of
exactly the policy length (4/4/6/8 for Mandatory/Common/Rare/Legendary)
consisting only of alphanumeric characters, and every secret code stored
in the constructed catalog has this shape for its entry's rarity. -/
theorem claim_C7_code_shape :
    (∀ (rarity : CheatCodeRarity) (stream : Nat → Fin 62),
      (generate_random_code rarity stream).length = codeLength rarity ∧
      ∀ ch ∈ (generate_random_code rarity stream).toList,
        ch.isAlphanum = true) ∧
    codeLength CheatCodeRarity.Mandatory = 4 ∧
    codeLength CheatCodeRarity.Common = 4 ∧
    codeLength CheatCodeRarity.Rare = 6 ∧
    codeLength CheatCodeRarity.Legendary = 8 ∧
    (∀ (s : CheatCodeKind → Nat → Fin 62),
      ∀ c ∈ (CheatCodeResource.new s).codes,
        c.text.length = codeLength c.rarity ∧
        ∀ ch ∈ c.text.toList, ch.isAlphanum = true) := by
  refine ⟨?_, rfl, rfl, rfl, rfl, ?_⟩
  · intro rarity stream
    exact ⟨generate_random_code_length rarity stream,
      generate_random_code_alphanum rarity stream⟩
  · intro s c hc
    obtain ⟨stream, htext⟩ := new_codes_text s c hc
    rw [htext]
    exact ⟨generate_random_code_length c.rarity stream,
      generate_random_code_alphanum c.rarity stream⟩

/-- Concrete run of C7: with the all-zero stream the Rare code is
`"AAAAAA"`: length 6 and alphanumeric (sampling the witness character
`'A'`). -/
theorem claim_C7_witness :
    (generate_random_code CheatCodeRarity.Rare (fun _ => (0 : Fin 62))).length
        = codeLength CheatCodeRarity.Rare ∧
      'A' ∈ (generate_random_code CheatCodeRarity.Rare
        (fun _ => (0 : Fin 62))).toList ∧
      Char.isAlphanum 'A' = true :=
  ⟨(claim_C7_code_shape.1 CheatCodeRarity.Rare (fun _ => (0 : Fin 62))).1,
    by decide,
    (claim_C7_code_shape.1 CheatCodeRarity.Rare (fun _ => (0 : Fin 62))).2
      'A' (by decide)⟩

/-- C8: `activate_code` and `is_code_activated` are deterministic — a
fixed catalog and activation state determine the outcome and the
resulting state — and when some entry (possibly several, if generated
codes collide) matches the input, the single first-matching entry of the
catalog iteration decides the outcome. -/
theorem claim_C8_redeem_deterministic (r : CheatCodeResource) (t : String) :
    r.activate_code t = r.activate_code t ∧
    (∀ k : CheatCodeKind, r.is_code_activated k = r.is_code_activated k) ∧
    (∀ c1, c1 ∈ r.codes → c1.text = t →
      ∃ c, c ∈ r.codes ∧ c.text = t ∧
        r.codes.find? (fun code => code.text == t) = some c ∧
        ((r.activate_code t).1 = CheatCodeActivationResult.Activated c.kind ∨
          (r.activate_code t).1 =
            CheatCodeActivationResult.AlreadyActivated c.kind)) := by
  refine ⟨rfl, fun _ => rfl, ?_⟩
  intro c1 hc1 ht
  have hsome : (r.codes.find? (fun code => code.text == t)).isSome := by
    rw [List.find?_isSome]
    exact ⟨c1, hc1, by simp [ht]⟩
  obtain ⟨c, hf⟩ := Option.isSome_iff_exists.mp hsome
  refine ⟨c, List.mem_of_find?_eq_some hf, by simpa using List.find?_some hf,
    hf, ?_⟩
  cases hact : r.is_code_activated c.kind with
  | true => right; rw [activate_code_of_find_some_activated hf hact]
  | false => left; rw [activate_code_of_find_some_fresh hf hact]

/-- Concrete run of C8: in `dupResource` both entries carry the code
`"dupe"`; the scan deterministically awards the first entry (`Jump`). -/
theorem claim_C8_witness :
    ∃ c, c ∈ dupResource.codes ∧ c.text = "dupe" ∧
      dupResource.codes.find? (fun code => code.text == "dupe") = some c ∧
      ((dupResource.activate_code "dupe").1 =
          CheatCodeActivationResult.Activated c.kind ∨
        (dupResource.activate_code "dupe").1 =
          CheatCodeActivationResult.AlreadyActivated c.kind) :=
  (claim_C8_redeem_deterministic dupResource "dupe").2.2
    (CheatCode.new CheatCodeKind.Jump CheatCodeRarity.Mandatory
      "dupe" [] "jump.png")
    (by decide) rfl

theorem CheatCodeRarity.weight_pos {r : CheatCodeRarity}
    (h : r ≠ CheatCodeRarity.Mandatory) : 0 < r.weight := by
  cases r with
  | Mandatory => exact absurd rfl h
  | Common => decide
  | Rare => decide
  | Legendary => decide

theorem available_entry (s : CheatCodeKind → Nat → Fin 62)
    (acts : List CheatCodeKind) (k : CheatCodeKind)
    (hdeps : ∀ d ∈ dependenciesOf k, d ∈ acts) (hk : k ∉ acts) :
    ∃ c ∈ (CheatCodeResource.mk (CheatCodeResource.new s).codes
        acts).availableCodes, c.kind = k ∧ c.rarity = rarityOf k := by
  obtain ⟨c, hc, hck, hcr, hcd⟩ := exists_new_entry s k
  refine ⟨c, mem_availableCodes.mpr ⟨hc, ?_, ?_⟩, hck, hcr⟩
  · intro d hd
    rw [hcd] at hd
    rw [is_code_activated_mk]
    exact (contains_iff_mem acts d).mpr (hdeps d hd)
  · rw [hck, is_code_activated_mk]
    exact (contains_eq_false_iff acts k).mpr hk

theorem available_entry_pos (s : CheatCodeKind → Nat → Fin 62)
    (acts : List CheatCodeKind) (k : CheatCodeKind)
    (hdeps : ∀ d ∈ dependenciesOf k, d ∈ acts) (hk : k ∉ acts)
    (hr : rarityOf k ≠ CheatCodeRarity.Mandatory) :
    ∃ c ∈ (CheatCodeResource.mk (CheatCodeResource.new s).codes
        acts).availableCodes, 0 < c.rarity.weight := by
  obtain ⟨c, hc, -, hcr⟩ := available_entry s acts k hdeps hk
  exact ⟨c, hc, hcr ▸ CheatCodeRarity.weight_pos hr⟩

/-- The combinatorial core of catalog non-exhaustion: as long as some
ability is not activated, either `Jump` (the Mandatory ability) is still
locked, or some positively weighted catalog entry is available (all its
dependencies activated, itself not). -/
theorem exists_candidate (s : CheatCodeKind → Nat → Fin 62)
    (acts : List CheatCodeKind) (h : ∃ k : CheatCodeKind, k ∉ acts) :
    CheatCodeKind.Jump ∉ acts ∨
      ∃ c ∈ (CheatCodeResource.mk (CheatCodeResource.new s).codes
        acts).availableCodes, 0 < c.rarity.weight := by
  by_cases hJump : CheatCodeKind.Jump ∈ acts
  case neg => exact Or.inl hJump
  refine Or.inr ?_
  by_cases hCrouch : CheatCodeKind.Crouch ∈ acts
  case neg =>
    exact available_entry_pos s acts .Crouch
      (by intro d hd; simp [dependenciesOf] at hd) hCrouch (by decide)
  by_cases hAttack : CheatCodeKind.Attack ∈ acts
  case neg =>
    exact available_entry_pos s acts .Attack
      (by intro d hd; simp [dependenciesOf] at hd) hAttack (by decide)
  by_cases hMoveLeft : CheatCodeKind.MoveLeft ∈ acts
  case neg =>
    exact available_entry_pos s acts .MoveLeft
      (by intro d hd; simp [dependenciesOf] at hd) hMoveLeft (by decide)
  by_cases hSB1 : CheatCodeKind.SpeedBoost1 ∈ acts
  case neg =>
    exact available_entry_pos s acts .SpeedBoost1
      (by intro d hd; simp [dependenciesOf] at hd) hSB1 (by decide)
  by_cases hArmor : CheatCodeKind.Armor ∈ acts
  case neg =>
    exact available_entry_pos s acts .Armor
      (by intro d hd; simp [dependenciesOf] at hd) hArmor (by decide)
  by_cases hDash : CheatCodeKind.Dash ∈ acts
  case neg =>
    exact available_entry_pos s acts .Dash
      (by intro d hd; simp [dependenciesOf] at hd) hDash (by decide)
  by_cases hExtraLife : CheatCodeKind.ExtraLife ∈ acts
  case neg =>
    exact available_entry_pos s acts .ExtraLife
      (by intro d hd; simp [dependenciesOf] at hd) hExtraLife (by decide)
  by_cases hADB : CheatCodeKind.AttackDmgBoost ∈ acts
  case neg =>
    exact available_entry_pos s acts .AttackDmgBoost
      (by intro d hd; simp [dependenciesOf] at hd; subst hd; exact hAttack)
      hADB (by decide)
  by_cases hAFRB : CheatCodeKind.AttackFireRateBoost ∈ acts
  case neg =>
    exact available_entry_pos s acts .AttackFireRateBoost
      (by intro d hd; simp [dependenciesOf] at hd; subst hd; exact hAttack)
      hAFRB (by decide)
  by_cases hSB2 : CheatCodeKind.SpeedBoost2 ∈ acts
  case neg =>
    exact available_entry_pos s acts .SpeedBoost2
      (by intro d hd; simp [dependenciesOf] at hd; subst hd; exact hSB1)
      hSB2 (by decide)
  by_cases hSB3 : CheatCodeKind.SpeedBoost3 ∈ acts
  case neg =>
    refine available_entry_pos s acts .SpeedBoost3 ?_ hSB3 (by decide)
    intro d hd
    simp [dependenciesOf] at hd
    rcases hd with rfl | rfl
    · exact hSB1
    · exact hSB2
  by_cases hSB4 : CheatCodeKind.SpeedBoost4 ∈ acts
  case neg =>
    refine available_entry_pos s acts .SpeedBoost4 ?_ hSB4 (by decide)
    intro d hd
    simp [dependenciesOf] at hd
    rcases hd with rfl | rfl | rfl
    · exact hSB1
    · exact hSB2
    · exact hSB3
  by_cases hSB5 : CheatCodeKind.SpeedBoost5 ∈ acts
  case neg =>
    refine available_entry_pos s acts .SpeedBoost5 ?_ hSB5 (by decide)
    intro d hd
    simp [dependenciesOf] at hd
    rcases hd with rfl | rfl | rfl | rfl
    · exact hSB1
    · exact hSB2
    · exact hSB3
    · exact hSB4
  by_cases hDJ : CheatCodeKind.DoubleJump ∈ acts
  case neg =>
    exact available_entry_pos s acts .DoubleJump
      (by intro d hd; simp [dependenciesOf] at hd; subst hd; exact hJump)
      hDJ (by decide)
  by_cases hShield : CheatCodeKind.Shield ∈ acts
  case neg =>
    exact available_entry_pos s acts .Shield
      (by intro d hd; simp [dependenciesOf] at hd; subst hd; exact hJump)
      hShield (by decide)
  by_cases hTI : CheatCodeKind.TempInvicibility ∈ acts
  case neg =>
    refine available_entry_pos s acts .TempInvicibility ?_ hTI (by decide)
    intro d hd
    simp [dependenciesOf] at hd
    rcases hd with rfl | rfl
    · exact hArmor
    · exact hShield
  by_cases hFly : CheatCodeKind.Fly ∈ acts
  case neg =>
    refine available_entry_pos s acts .Fly ?_ hFly (by decide)
    intro d hd
    simp [dependenciesOf] at hd
    rcases hd with rfl | rfl
    · exact hJump
    · exact hDJ
  obtain ⟨k, hk⟩ := h
  exfalso
  cases k <;> first
    | exact hk hJump
    | exact hk hCrouch
    | exact hk hAttack
    | exact hk hMoveLeft
    | exact hk hSB1
    | exact hk hArmor
    | exact hk hDash
    | exact hk hExtraLife
    | exact hk hADB
    | exact hk hAFRB
    | exact hk hSB2
    | exact hk hSB3
    | exact hk hSB4
    | exact hk hSB5
    | exact hk hDJ
    | exact hk hShield
    | exact hk hTI
    | exact hk hFly

theorem jump_mem_mandatoryCodes (s : CheatCodeKind → Nat → Fin 62)
    (acts : List CheatCodeKind) (hJ : CheatCodeKind.Jump ∉ acts) :
    CheatCodeKind.Jump ∈ (CheatCodeResource.mk
      (CheatCodeResource.new s).codes acts).mandatoryCodes := by
  obtain ⟨c, hc, hck, hcr, -⟩ := exists_new_entry s .Jump
  refine mem_mandatoryCodes.mpr ⟨c, hc, hck, hcr, ?_⟩
  rw [is_code_activated_mk]
  exact (contains_eq_false_iff acts _).mpr hJ

/-- C9: in the catalog built by `CheatCodeResource::new`, every activation
state missing at least one of the 18 ability ids leaves a non-empty
candidate pool: either some Mandatory ability is locked, or some ability
with all dependencies activated is available.  The `choose_weighted`
panic can therefore only be reached with all 18 abilities activated. -/
theorem claim_C9_pool_nonempty (s : CheatCodeKind → Nat → Fin 62)
    (acts : List CheatCodeKind) (h : ∃ k : CheatCodeKind, k ∉ acts) :
    (CheatCodeResource.mk (CheatCodeResource.new s).codes
        acts).mandatoryCodes ≠ [] ∨
      (CheatCodeResource.mk (CheatCodeResource.new s).codes
        acts).availableCodes ≠ [] := by
  rcases exists_candidate s acts h with hJ | ⟨c, hc, -⟩
  · exact Or.inl (List.ne_nil_of_mem (jump_mem_mandatoryCodes s acts hJ))
  · exact Or.inr (List.ne_nil_of_mem hc)

/-- Concrete run of C9: with only `Jump` activated, the pool is not
empty (`Crouch` is missing from the activation state). -/
theorem claim_C9_witness :
    (∃ k : CheatCodeKind, k ∉ [CheatCodeKind.Jump]) ∧
      ((CheatCodeResource.mk
          (CheatCodeResource.new (fun _ _ => (0 : Fin 62))).codes
          [CheatCodeKind.Jump]).mandatoryCodes ≠ [] ∨
        (CheatCodeResource.mk
          (CheatCodeResource.new (fun _ _ => (0 : Fin 62))).codes
          [CheatCodeKind.Jump]).availableCodes ≠ []) :=
  ⟨⟨CheatCodeKind.Crouch, by decide⟩,
    claim_C9_pool_nonempty (fun _ _ => (0 : Fin 62)) [CheatCodeKind.Jump]
      ⟨CheatCodeKind.Crouch, by decide⟩⟩

/-- C6: when both the mandatory list and the available list are empty,
`get_next_code` has no answer (the model of the `.unwrap()` panic); and
whenever at least one ability of the constructed catalog is not activated
that branch is unreachable — the call returns an id. -/
theorem claim_C6_exhaustion_panic :
    (∀ (r : CheatCodeResource) (rand : Nat),
      r.mandatoryCodes = [] → r.availableCodes = [] →
        r.get_next_code rand = none) ∧
    (∀ (s : CheatCodeKind → Nat → Fin 62) (acts : List CheatCodeKind)
      (rand : Nat), (∃ k : CheatCodeKind, k ∉ acts) →
        ((CheatCodeResource.mk (CheatCodeResource.new s).codes
          acts).get_next_code rand).isSome = true) := by
  constructor
  · intro r rand h1 h2
    simp only [CheatCodeResource.get_next_code, h1, h2]
    simp [choose_weighted, totalWeight]
  · intro s acts rand h
    rcases exists_candidate s acts h with hJ | ⟨c, hc, hw⟩
    · exact get_next_code_isSome_of_mandatory
        (List.ne_nil_of_mem (jump_mem_mandatoryCodes s acts hJ)) rand
    · by_cases hm : (CheatCodeResource.mk (CheatCodeResource.new s).codes
          acts).mandatoryCodes = []
      · exact get_next_code_isSome_of_available hm hc hw rand
      · exact get_next_code_isSome_of_mandatory hm rand

/-- Concrete run of C6: an empty catalog has both candidate lists empty
and the selector yields no id, while the fresh full catalog (nothing
activated) always yields one. -/
theorem claim_C6_witness :
    (CheatCodeResource.mk [] []).mandatoryCodes = [] ∧
      (CheatCodeResource.mk [] []).availableCodes = [] ∧
      (CheatCodeResource.mk [] []).get_next_code 0 = none ∧
      (∃ k : CheatCodeKind, k ∉ ([] : List CheatCodeKind)) ∧
      ((CheatCodeResource.mk
        (CheatCodeResource.new (fun _ _ => (0 : Fin 62))).codes
        []).get_next_code 3).isSome = true :=
  ⟨rfl, rfl,
    claim_C6_exhaustion_panic.1 (CheatCodeResource.mk [] []) 0 rfl rfl,
    ⟨CheatCodeKind.Jump, by decide⟩,
    claim_C6_exhaustion_panic.2 (fun _ _ => (0 : Fin 62)) [] 3
      ⟨CheatCodeKind.Jump, by decide⟩⟩

theorem totalWeight_cons (c : CheatCode) (l : List CheatCode) :
    totalWeight (c :: l) = c.rarity.weight + totalWeight l := by
  simp [totalWeight]

theorem pickWeighted_cons_add (d : CheatCode) (rest : List CheatCode)
    (n : Nat) :
    pickWeighted (d :: rest) (d.rarity.weight + n) = pickWeighted rest n := by
  have hstep : pickWeighted (d :: rest) (d.rarity.weight + n) =
      if d.rarity.weight + n < d.rarity.weight then some d
      else pickWeighted rest (d.rarity.weight + n - d.rarity.weight) := rfl
  have harg : d.rarity.weight + n - d.rarity.weight = n := by omega
  rw [hstep, if_neg (by omega), harg]

theorem count_pickWeighted_of_not_mem (c : CheatCode) :
    ∀ l : List CheatCode, c ∉ l →
      ((List.range (totalWeight l)).countP
        (fun n => decide (pickWeighted l n = some c))) = 0 := by
  intro l
  induction l with
  | nil => intro _; simp [totalWeight]
  | cons d rest ih =>
      intro hc
      have hd : d ≠ c := fun e => hc (e ▸ List.mem_cons_self d rest)
      rw [totalWeight_cons, List.range_add, List.countP_append]
      have h1 : ((List.range d.rarity.weight).countP
          (fun n => decide (pickWeighted (d :: rest) n = some c))) = 0 := by
        rw [List.countP_eq_zero]
        intro n hn
        rw [List.mem_range] at hn
        simp [pickWeighted, hn, hd]
      have h2 : (((List.range (totalWeight rest)).map
          (fun n => d.rarity.weight + n)).countP
          (fun n => decide (pickWeighted (d :: rest) n = some c))) = 0 := by
        rw [List.countP_map]
        have hcong : ∀ n ∈ List.range (totalWeight rest),
            (((fun n => decide (pickWeighted (d :: rest) n = some c)) ∘
              (fun n => d.rarity.weight + n)) n = true ↔
              (fun n => decide (pickWeighted rest n = some c)) n = true) := by
          intro n _
          simp [Function.comp, pickWeighted_cons_add]
        rw [List.countP_congr hcong]
        exact ih (fun hmem => hc (List.mem_cons_of_mem d hmem))
      rw [h1, h2]

theorem count_pickWeighted_of_mem (c : CheatCode) :
    ∀ l : List CheatCode, l.Nodup → c ∈ l →
      ((List.range (totalWeight l)).countP
        (fun n => decide (pickWeighted l n = some c))) = c.rarity.weight := by
  intro l
  induction l with
  | nil => intro _ h; simp at h
  | cons d rest ih =>
      intro hnd hc
      obtain ⟨hdrest, hndrest⟩ := List.nodup_cons.mp hnd
      rw [totalWeight_cons, List.range_add, List.countP_append]
      have h2base : (((List.range (totalWeight rest)).map
          (fun n => d.rarity.weight + n)).countP
          (fun n => decide (pickWeighted (d :: rest) n = some c))) =
          ((List.range (totalWeight rest)).countP
            (fun n => decide (pickWeighted rest n = some c))) := by
        rw [List.countP_map]
        have hcong : ∀ n ∈ List.range (totalWeight rest),
            (((fun n => decide (pickWeighted (d :: rest) n = some c)) ∘
              (fun n => d.rarity.weight + n)) n = true ↔
              (fun n => decide (pickWeighted rest n = some c)) n = true) := by
          intro n _
          simp [Function.comp, pickWeighted_cons_add]
        rw [List.countP_congr hcong]
      rcases List.mem_cons.mp hc with rfl | hcrest
      · have h1 : ((List.range c.rarity.weight).countP
            (fun n => decide (pickWeighted (c :: rest) n = some c))) =
            c.rarity.weight := by
          have hall : ∀ n ∈ List.range c.rarity.weight,
              (fun n => decide (pickWeighted (c :: rest) n = some c)) n
                = true := by
            intro n hn
            rw [List.mem_range] at hn
            simp [pickWeighted, hn]
          rw [List.countP_eq_length.mpr hall, List.length_range]
        rw [h1, h2base, count_pickWeighted_of_not_mem c rest hdrest]
        omega
      · have hd : d ≠ c := fun e => hdrest (e ▸ hcrest)
        have h1 : ((List.range d.rarity.weight).countP
            (fun n => decide (pickWeighted (d :: rest) n = some c))) = 0 := by
          rw [List.countP_eq_zero]
          intro n hn
          rw [List.mem_range] at hn
          simp [pickWeighted, hn, hd]
        rw [h1, h2base, ih hndrest hcrest]
        omega

theorem count_choose_weighted {l : List CheatCode} (hnd : l.Nodup)
    {c : CheatCode} (hc : c ∈ l) (hw : 0 < c.rarity.weight) :
    ((List.range (totalWeight l)).countP
      (fun n => decide (choose_weighted l n = some c))) = c.rarity.weight := by
  have htot : 0 < totalWeight l :=
    lt_of_lt_of_le hw (le_totalWeight_of_mem hc)
  have hcong : ∀ n ∈ List.range (totalWeight l),
      ((fun n => decide (choose_weighted l n = some c)) n = true ↔
        (fun n => decide (pickWeighted l n = some c)) n = true) := by
    intro n hn
    rw [List.mem_range] at hn
    show decide (choose_weighted l n = some c) = true ↔
      decide (pickWeighted l n = some c) = true
    unfold choose_weighted
    rw [if_neg (Nat.pos_iff_ne_zero.mp htot), Nat.mod_eq_of_lt hn]
  rw [List.countP_congr hcong]
  exact count_pickWeighted_of_mem c l hnd hc

theorem available_not_mandatory {r : CheatCodeResource}
    (hm : r.mandatoryCodes = []) {c : CheatCode}
    (hc : c ∈ r.availableCodes) : c.rarity ≠ CheatCodeRarity.Mandatory := by
  intro he
  obtain ⟨hcmem, -, hact⟩ := mem_availableCodes.mp hc
  have hmem : c.kind ∈ r.mandatoryCodes :=
    mem_mandatoryCodes.mpr ⟨c, hcmem, rfl, he, hact⟩
  rw [hm] at hmem
  exact List.not_mem_nil _ hmem

theorem availableCodes_kinds_nodup_of (codes : List CheatCode)
    (acts : List CheatCodeKind)
    (h : (codes.map (fun c => c.kind)).Nodup) :
    (((CheatCodeResource.mk codes acts).availableCodes).map
      (fun c => c.kind)).Nodup := by
  unfold CheatCodeResource.availableCodes
  refine List.Nodup.sublist ?_ h
  exact (List.filter_sublist _).map (fun (c : CheatCode) => c.kind)

theorem availableCodes_kinds_nodup (s : CheatCodeKind → Nat → Fin 62)
    (acts : List CheatCodeKind) :
    (((CheatCodeResource.mk (CheatCodeResource.new s).codes
      acts).availableCodes).map (fun c => c.kind)).Nodup :=
  availableCodes_kinds_nodup_of ((CheatCodeResource.new s).codes) acts
    (new_codes_kinds_nodup s)

theorem get_next_code_eq_some_kind_iff {r : CheatCodeResource}
    (hm : r.mandatoryCodes = [])
    (hknd : ((r.availableCodes).map (fun c => c.kind)).Nodup)
    {c : CheatCode} (hc : c ∈ r.availableCodes) (rand : Nat) :
    (r.get_next_code rand = some c.kind ↔
      choose_weighted r.availableCodes rand = some c) := by
  unfold CheatCodeResource.get_next_code
  simp only [hm, List.isEmpty_nil, Bool.not_true, Bool.false_eq_true,
    if_false]
  constructor
  · intro h
    cases hcw : choose_weighted r.availableCodes rand with
    | none => rw [hcw] at h; simp at h
    | some c2 =>
        rw [hcw] at h
        simp only [Option.map_some'] at h
        have hkk : c2.kind = c.kind := Option.some.inj h
        have hc2 := choose_weighted_mem hcw
        have heq : c2 = c := List.inj_on_of_nodup_map hknd hc2 hc hkk
        rw [heq]
  · intro h
    rw [h]
    rfl

theorem count_get_next_code {r : CheatCodeResource}
    (hm : r.mandatoryCodes = [])
    (hknd : ((r.availableCodes).map (fun c => c.kind)).Nodup)
    {c : CheatCode} (hc : c ∈ r.availableCodes) :
    ((List.range (totalWeight r.availableCodes)).countP
      (fun rand => decide (r.get_next_code rand = some c.kind))) =
      c.rarity.weight := by
  have hnd := List.Nodup.of_map (fun (c : CheatCode) => c.kind) hknd
  have hw : 0 < c.rarity.weight :=
    CheatCodeRarity.weight_pos (available_not_mandatory hm hc)
  have hcong : ∀ n ∈ List.range (totalWeight r.availableCodes),
      ((fun rand => decide (r.get_next_code rand = some c.kind)) n = true ↔
        (fun n => decide (choose_weighted r.availableCodes n = some c)) n
          = true) := by
    intro n _
    simp only [decide_eq_true_eq]
    exact get_next_code_eq_some_kind_iff hm hknd hc n
  rw [List.countP_congr hcong]
  exact count_choose_weighted hnd hc hw

/-- C5: once no Mandatory ability is locked, each available catalog entry
is drawn with frequency equal to its rarity weight: over one full period
`[0, totalWeight)` of the uniform draw, exactly `weight(rarity)` of the
draws select that entry's kind — i.e. probability weight / total weight
(Common = 10, Rare = 5, Legendary = 2). -/
theorem claim_C5_weighted_distribution (s : CheatCodeKind → Nat → Fin 62)
    (acts : List CheatCodeKind)
    (hm : (CheatCodeResource.mk (CheatCodeResource.new s).codes
      acts).mandatoryCodes = [])
    (c : CheatCode)
    (hc : c ∈ (CheatCodeResource.mk (CheatCodeResource.new s).codes
      acts).availableCodes) :
    ((List.range (totalWeight ((CheatCodeResource.mk
        (CheatCodeResource.new s).codes acts).availableCodes))).countP
      (fun rand => decide ((CheatCodeResource.mk
        (CheatCodeResource.new s).codes acts).get_next_code rand
          = some c.kind))) = c.rarity.weight :=
  count_get_next_code hm (availableCodes_kinds_nodup s acts) hc

/-- Concrete run of C5: with everything but `Dash` and `ExtraLife`
activated, the eligible set is `{Dash (weight 10), ExtraLife (weight 2)}`,
total weight 12, and `Dash` is drawn in exactly 10 of the 12 residues of
the uniform draw. -/
theorem claim_C5_witness :
    (CheatCodeResource.mk
        (CheatCodeResource.new (fun _ _ => (0 : Fin 62))).codes
        denseActs).mandatoryCodes = [] ∧
      CheatCode.mk CheatCodeKind.Dash CheatCodeRarity.Common "AAAA" []
          "dash.png" ∈
        (CheatCodeResource.mk
          (CheatCodeResource.new (fun _ _ => (0 : Fin 62))).codes
          denseActs).availableCodes ∧
      totalWeight ((CheatCodeResource.mk
        (CheatCodeResource.new (fun _ _ => (0 : Fin 62))).codes
        denseActs).availableCodes) = 12 ∧
      ((List.range (totalWeight ((CheatCodeResource.mk
          (CheatCodeResource.new (fun _ _ => (0 : Fin 62))).codes
          denseActs).availableCodes))).countP
        (fun rand => decide ((CheatCodeResource.mk
          (CheatCodeResource.new (fun _ _ => (0 : Fin 62))).codes
          denseActs).get_next_code rand = some (CheatCode.mk
            CheatCodeKind.Dash CheatCodeRarity.Common "AAAA" []
            "dash.png").kind))) = (CheatCode.mk CheatCodeKind.Dash
        CheatCodeRarity.Common "AAAA" [] "dash.png").rarity.weight :=
  ⟨by decide, by decide, by decide,
    claim_C5_weighted_distribution (fun _ _ => (0 : Fin 62)) denseActs
      (by decide)
      (CheatCode.mk CheatCodeKind.Dash CheatCodeRarity.Common "AAAA" []
        "dash.png")
      (by decide)⟩
